import Mathlib

/-!
Shallow embedding of `zmq/web/zmqweb.py`: the front-end dispatchers
(`ZMQApplicationProxy`, `ZMQStreamingApplicationProxy`), the back-end service
(`ZMQApplication._handle_request` / `_parse_request`) and the back-end request
representations (`ZMQHTTPRequest`, `ZMQStreamingHTTPRequest`).

Frames are modelled as an inductive type: either an opaque byte string or a
JSON-encoded metadata record (`jsonapi.dumps` produces the latter, and
`jsonapi.loads` inverts it; decoding a non-JSON frame fails with ValueError).
Python exceptions relevant to the control flow of this module are modelled
explicitly, since the code's `try/except` structure decides several claims.
-/

namespace ZmqWeb

/-- Metadata record serialized by `ZMQApplicationProxy.send_request` into the
JSON frame: the `req` dict built at lines 93-105 of zmqweb.py. -/
structure Meta where
  method : String
  uri : String
  version : String
  headers : List (String × String)
  remote_ip : String
  protocol : String
  host : String
  files : List (String × String)
  arguments : List (String × List String)
  args : List String
  kwargs : List (String × String)
deriving DecidableEq, Repr

/-- A single zmq frame: an opaque byte string, or the JSON serialization of a
`Meta` record (kept symbolic so that `loads ∘ dumps = id` holds by
construction, as it does for `zmq.utils.jsonapi` on these records). -/
inductive Frame where
  | bytes (s : String)
  | json (m : Meta)
deriving DecidableEq, Repr

/-- The delimiter sentinel frame `b'|'` (zmqweb.py line 108 / 451). -/
def delim : Frame := .bytes "|"

/-- Python exceptions that steer control flow in zmqweb.py. -/
inductive PyErr where
  | indexError
  | valueError
  | nameError
  | keyError
  | socketError
  | otherError
deriving DecidableEq, Repr

/-- Model of `jsonapi.dumps` on the request dict. -/
def jsonapiDumps (m : Meta) : Frame := .json m

/-- Model of `jsonapi.loads`: inverts `dumps`; on a frame that is not valid
JSON it raises (ValueError in the real library). -/
def jsonapiLoads : Frame → Except PyErr Meta
  | .json m => .ok m
  | .bytes _ => .error .valueError

/-- Model of Python `list.__getitem__`: raises IndexError out of range. -/
def getFrame (l : List Frame) (i : Nat) : Except PyErr Frame :=
  match l.get? i with
  | some f => .ok f
  | none => .error .indexError

/-- Model of Python `list.index`: index of the first occurrence, raising
ValueError when the element is absent. -/
def listIndex (l : List Frame) (x : Frame) : Except PyErr Nat :=
  match l with
  | [] => .error .valueError
  | a :: r =>
    if a = x then .ok 0
    else
      match listIndex r x with
      | .ok i => .ok (i + 1)
      | .error e => .error e

/-! ## Correlation registry

`ZMQApplicationProxy._callbacks` is a Python dict mapping `msg_id` to the pair
`(handler, dc)` where `dc` is the `DelayedCallback` or `None`. Handlers are
opaque; we identify them by a natural number. The dict is modelled as an
association list where insertion replaces any previous binding, matching dict
assignment. The `Bool` records whether the entry holds a timer reference
(`dc is not None`). -/

abbrev Handler := Nat

abbrev Registry := List (Frame × Handler × Bool)

/-- Keys of the registry (the msg_ids with a pending entry). -/
def keys (st : Registry) : List Frame := st.map (·.1)

/-- Model of `dict.get(k)` / `dict.__contains__`: the first binding of `k`. -/
def rlookup (st : Registry) (k : Frame) : Option (Handler × Bool) :=
  match st.find? (fun e => e.1 = k) with
  | some e => some e.2
  | none => none

/-- Model of removing `k` (the removal half of `dict.pop`). -/
def rremove (st : Registry) (k : Frame) : Registry :=
  st.filter (fun e => ¬ e.1 = k)

/-- Model of `dict.__setitem__`: binds `k`, replacing any previous binding. -/
def rinsert (st : Registry) (k : Frame) (v : Handler × Bool) : Registry :=
  (k, v) :: rremove st k

theorem rlookup_nil (k : Frame) : rlookup [] k = none := rfl

theorem rlookup_cons (e : Frame × Handler × Bool) (st : Registry) (k : Frame) :
    rlookup (e :: st) k = if e.1 = k then some e.2 else rlookup st k := by
  by_cases h : e.1 = k <;> simp [rlookup, List.find?, h]

theorem rlookup_eq_none_iff (st : Registry) (k : Frame) :
    rlookup st k = none ↔ ∀ e ∈ st, e.1 ≠ k := by
  induction st with
  | nil => simp [rlookup]
  | cons e st ih =>
    rw [rlookup_cons]
    by_cases h : e.1 = k <;> simp [h, ih]

theorem rlookup_rremove_self (st : Registry) (k : Frame) :
    rlookup (rremove st k) k = none := by
  rw [rlookup_eq_none_iff]
  intro e he
  have := List.of_mem_filter he
  simpa using this

theorem rlookup_rremove_ne (st : Registry) (k k' : Frame) (h : k' ≠ k) :
    rlookup (rremove st k) k' = rlookup st k' := by
  induction st with
  | nil => rfl
  | cons e st ih =>
    by_cases he : e.1 = k
    · have hne : ¬ e.1 = k' := fun hk => h (hk.symm.trans he)
      rw [show rremove (e :: st) k = rremove st k by
        simp [rremove, List.filter_cons, he]]
      rw [rlookup_cons, if_neg hne]
      exact ih
    · rw [show rremove (e :: st) k = e :: rremove st k by
        simp [rremove, List.filter_cons, he]]
      rw [rlookup_cons, rlookup_cons]
      by_cases he' : e.1 = k' <;> simp [he', ih]

theorem rlookup_rinsert_self (st : Registry) (k : Frame) (v : Handler × Bool) :
    rlookup (rinsert st k v) k = some v := by
  simp [rinsert, rlookup_cons]

theorem rlookup_rinsert_ne (st : Registry) (k k' : Frame) (v : Handler × Bool)
    (h : k' ≠ k) : rlookup (rinsert st k v) k' = rlookup st k' := by
  simp [rinsert, rlookup_cons, fun hk : k = k' => h hk.symm]
  rw [if_neg (fun hk : k = k' => h hk.symm)]
  exact rlookup_rremove_ne st k k' h

theorem keys_rremove (st : Registry) (k : Frame) :
    keys (rremove st k) = (keys st).filter (fun x => ¬ x = k) := by
  induction st with
  | nil => rfl
  | cons e st ih =>
    by_cases he : e.1 = k <;>
      simp [rremove, keys, List.filter, he] at * <;> simpa using ih

theorem mem_keys_iff_isSome (st : Registry) (k : Frame) :
    k ∈ keys st ↔ (rlookup st k).isSome := by
  induction st with
  | nil => simp [keys, rlookup]
  | cons e st ih =>
    rw [rlookup_cons]
    by_cases he : e.1 = k
    · simp [keys, he]
    · have hk : keys (e :: st) = e.1 :: keys st := rfl
      rw [if_neg he, hk, List.mem_cons, ← ih]
      constructor
      · rintro (h1 | h2)
        · exact absurd h1.symm he
        · exact h2
      · exact Or.inr

/-! ## Wire codec: front-end encode (`ZMQApplicationProxy.send_request`,
lines 91-112) and back-end decode (`ZMQApplication._parse_request`,
lines 445-467, and `_handle_request`, lines 434-443). -/

/-- The tornado HTTPRequest fields that `send_request` reads off the inbound
HTTP request (zmqweb.py lines 94-103). -/
structure FrontRequest where
  method : String
  uri : String
  version : String
  headers : List (String × String)
  body : String
  remote_ip : String
  protocol : String
  host : String
  files : List (String × String)
  arguments : List (String × List String)
deriving DecidableEq, Repr

/-- The `req` dict built by `ZMQApplicationProxy.send_request`
(lines 93-105). -/
def reqMeta (request : FrontRequest) (args : List String)
    (kwargs : List (String × String)) : Meta :=
  { method := request.method, uri := request.uri, version := request.version,
    headers := request.headers, remote_ip := request.remote_ip,
    protocol := request.protocol, host := request.host,
    files := request.files, arguments := request.arguments,
    args := args, kwargs := kwargs }

/-- Frame list built and sent by `ZMQApplicationProxy.send_request`
(lines 107-112): `[b'|', msg_id, jsonapi.dumps(req)]`, plus the raw body as a
trailing frame only when `body` is truthy (non-empty). -/
def encodeRequest (request : FrontRequest) (args : List String)
    (kwargs : List (String × String)) (msg_id : String) : List Frame :=
  let msg_list := [delim, .bytes msg_id,
                   jsonapiDumps (reqMeta request args kwargs)]
  if request.body = "" then msg_list else msg_list ++ [.bytes request.body]

/-- Simplified model of the external `urlparse.urlsplit(...).path` for the
relative URIs this module handles: everything before the first `?`. -/
def urlsplitPath (uri : String) : String := uri.takeWhile (· ≠ '?')

/-- Simplified model of the external `urlparse.urlsplit(...).query`. -/
def urlsplitQuery (uri : String) : String :=
  (uri.dropWhile (· ≠ '?')).drop 1

/-- The state constructed by `ZMQHTTPRequest.__init__` (lines 279-315): the
decoded wire-record fields plus identity prefix, correlation id, and the
derived path/query. -/
structure ZMQHTTPRequest where
  method : String
  uri : String
  version : String
  headers : List (String × String)
  body : Frame
  remote_ip : String
  protocol : String
  host : String
  files : List (String × String)
  arguments : List (String × List String)
  idents : List Frame
  msg_id : Frame
  path : String
  query : String
deriving DecidableEq, Repr

/-- Model of `ZMQHTTPRequest.__init__` applied to the decoded fields: the
`headers or HTTPHeaders()`, `body or ""`, `files or {}` defaults replace a
falsy (empty) value by an empty one of the expected type. -/
def mkZMQHTTPRequest (req : Meta) (body : Frame) (idents : List Frame)
    (msg_id : Frame) : ZMQHTTPRequest :=
  { method := req.method, uri := req.uri, version := req.version,
    headers := if req.headers = [] then [] else req.headers,
    body := if body = .bytes "" then .bytes "" else body,
    remote_ip := req.remote_ip, protocol := req.protocol, host := req.host,
    files := if req.files = [] then [] else req.files,
    arguments := req.arguments,
    idents := idents, msg_id := msg_id,
    path := urlsplitPath req.uri, query := urlsplitQuery req.uri }

/-- Result of `ZMQApplication._parse_request`: the request object and the
pre-resolved dispatch arguments. -/
structure Parsed where
  request : ZMQHTTPRequest
  args : List String
  kwargs : List (String × String)
deriving DecidableEq, Repr

/-- Model of `ZMQApplication._parse_request` (lines 445-467).
Raises IndexError when fewer than 4 frames; `msg_list.index(b'|')` raises
ValueError when the sentinel is absent; the frames at `i+1` and `i+2` raise
IndexError when out of range; `jsonapi.loads` raises on a non-JSON frame; the
body is the frame at `i+3` exactly when the list length is `i+4`. -/
def parseRequest (msg_list : List Frame) : Except PyErr Parsed :=
  if msg_list.length < 4 then .error .indexError
  else
    match listIndex msg_list delim with
    | .error e => .error e
    | .ok i =>
      match getFrame msg_list (i+1) with
      | .error e => .error e
      | .ok msg_id =>
        match getFrame msg_list (i+2) with
        | .error e => .error e
        | .ok reqFrame =>
          match jsonapiLoads reqFrame with
          | .error e => .error e
          | .ok req =>
            let body : Frame :=
              if msg_list.length = i + 4 then
                (msg_list.get? (i+3)).getD (.bytes "")
              else .bytes ""
            let idents := msg_list.take i
            .ok { request := mkZMQHTTPRequest req body idents msg_id,
                  args := req.args, kwargs := req.kwargs }

/-- Outcome of the back end's receive callback. -/
inductive HandleRequestOutcome where
  | dispatched (p : Parsed)
  | droppedMalformed
  | escaped (e : PyErr)
deriving DecidableEq, Repr

/-- Model of `ZMQApplication._handle_request` (lines 434-443): the
`try/except IndexError` around `_parse_request` — only IndexError is caught
and logged; any other exception escapes the on_recv callback. -/
def handleRequest (msg_list : List Frame) : HandleRequestOutcome :=
  match parseRequest msg_list with
  | .ok p => .dispatched p
  | .error .indexError => .droppedMalformed
  | .error e => .escaped e

/-! ## Back-end request representations (reply framing)

`ZMQHTTPRequest._create_msg_list` (lines 317-323) and the three send paths:
bulk `finish` (lines 332-346), streaming `write` (lines 363-375), streaming
`finish` (lines 377-384). -/

/-- Model of `ZMQHTTPRequest._create_msg_list`: `idents ++ [msg_id]`. -/
def createMsgList (idents : List Frame) (msg_id : Frame) : List Frame :=
  idents ++ [msg_id]

/-- Frame list sent by `ZMQHTTPRequest.finish` with the buffered chunks
(in the order `write` appended them). -/
def bulkFinishFrames (idents : List Frame) (msg_id : Frame)
    (chunks : List Frame) : List Frame :=
  createMsgList idents msg_id ++ chunks

/-- Frame list sent by `ZMQStreamingHTTPRequest.write` for one chunk. -/
def streamWriteFrames (idents : List Frame) (msg_id : Frame)
    (chunk : Frame) : List Frame :=
  createMsgList idents msg_id ++ [.bytes "DATA", chunk]

/-- Frame list sent by `ZMQStreamingHTTPRequest.finish`. -/
def streamFinishFrames (idents : List Frame) (msg_id : Frame) : List Frame :=
  createMsgList idents msg_id ++ [.bytes "FINISH"]

/-! ## Front-end dispatchers

`ZMQApplicationProxy._handle_reply` (lines 128-153),
`ZMQStreamingApplicationProxy._handle_reply` (lines 167-209), and the
`_handle_timeout` closure created by `send_request` (lines 114-125).
Handler method calls are recorded as events; `logged` records a
`logging.error` call. -/

/-- Observable calls made by the dispatchers into the tornado handler, plus
log records. -/
inductive HEvent where
  | write (h : Handler) (chunk : Frame)
  | flush (h : Handler)
  | finish (h : Handler)
  | sendError (h : Handler) (code : Nat)
  | logged
deriving DecidableEq, Repr

/-- True for events that invoke a handler method (anything but a log). -/
def HEvent.isHandlerCall : HEvent → Bool
  | .logged => false
  | _ => true

/-- Model of the `_handle_timeout` closure (lines 115-120): it first calls
`handler.send_error(504)` unconditionally, then `self._callbacks.pop(msg_id)`;
a KeyError from the pop (entry already gone) is caught and logged. -/
def handleTimeoutCb (st : Registry) (msg_id : Frame) (handler : Handler) :
    Registry × List HEvent :=
  match rlookup st msg_id with
  | some _ => (rremove st msg_id, [.sendError handler 504])
  | none => (st, [.sendError handler 504, .logged])

/-- The handler calls attempted inside the `try` of
`ZMQApplicationProxy._handle_reply` (lines 141-151): one `write` per reply
frame, then `finish`. -/
def bulkCalls (handler : Handler) (replies : List Frame) : List HEvent :=
  replies.map (fun r => .write handler r) ++ [.finish handler]

/-- Model of `ZMQApplicationProxy._handle_reply` (lines 128-153),
parameterized by the handler's behaviour: `failAt = some k` means the k-th
handler call inside the `try` raises (the bare `except` catches and logs it).
Returns the new registry, the events that happened, and whether an exception
was caught. The `pop(msg_id, None)` removes the entry before any handler call;
`dc.stop()` is a timer-object call with no registry effect (the timer set is
tracked in the system model below). -/
def bulkHandleReply (failAt : Option Nat) (st : Registry)
    (msg_list : List Frame) : Registry × List HEvent × Bool :=
  match msg_list with
  | [] => (st, [.logged], false)
  | [_] => (st, [.logged], false)
  | msg_id :: replies =>
    match rlookup st msg_id with
    | none => (st, [], false)
    | some (handler, _) =>
      let st' := rremove st msg_id
      let calls := bulkCalls handler replies
      match failAt with
      | some k =>
        if k < calls.length then (st', calls.take k ++ [.logged], true)
        else (st', calls, false)
      | none => (st', calls, false)

/-- Model of `ZMQStreamingApplicationProxy._handle_reply` (lines 167-209) on
the non-raising handler path. Fewer than 2 frames: log and return. Unknown
id (`get` returns None): fall through with no effect. `DATA` with exactly 3
frames: when the entry still holds a timer, stop it and rebind the entry with
`None`, then `write` the chunk and `flush`. `FINISH` (any frame count): pop
the entry and `finish` the handler. Any other tag: no effect and no log. -/
def streamingHandleReply (st : Registry) (msg_list : List Frame) :
    Registry × List HEvent :=
  match msg_list with
  | [] => (st, [.logged])
  | [_] => (st, [.logged])
  | msg_id :: reply :: rest =>
    match rlookup st msg_id with
    | none => (st, [])
    | some (handler, dc) =>
      if reply = Frame.bytes "DATA" ∧ rest.length = 1 then
        let st' := if dc then rinsert st msg_id (handler, false) else st
        (st', [.write handler (rest.getD 0 (.bytes "")), .flush handler])
      else if reply = Frame.bytes "FINISH" then
        (rremove st msg_id, [.finish handler])
      else
        (st, [])

/-- Names bound at module level in zmqweb.py (imports, lines 39-54). The
name `socket` is not among them. -/
def moduleNames : List String :=
  ["logging", "time", "uuid", "urlparse", "httpserver", "httputil", "web",
   "stack_context", "native_str", "b", "zmq", "ZMQStream", "IOLoop",
   "DelayedCallback", "jsonapi"]

/-- Model of evaluating a global name in the module's scope: an unbound name
raises NameError. -/
def lookupName (n : String) : Except PyErr Unit :=
  if n ∈ moduleNames then .ok () else .error .nameError

/-- Model of the exception handling shared by the streaming `DATA` branch
(lines 183-198) and `FINISH` branch (lines 202-209):
`try: ... except socket.error: pass except: log`. When the try-body raises,
Python evaluates the first clause's expression `socket.error`; if the name
`socket` is unbound that evaluation raises NameError, which replaces the
in-flight exception and escapes the whole statement — the later bare
`except` is never consulted for it. -/
def exceptSocketBlock (bodyResult : Except PyErr Unit) :
    Except PyErr (List HEvent) :=
  match bodyResult with
  | .ok _ => .ok []
  | .error e =>
    match lookupName "socket" with
    | .error ne => .error ne
    | .ok _ => if e = .socketError then .ok [] else .ok [.logged]

/-- Run `streamingHandleReply` over a sequence of reply frame lists in order,
threading the registry and concatenating the handler events. -/
def processReplies (st : Registry) : List (List Frame) → Registry × List HEvent
  | [] => (st, [])
  | ml :: rest =>
    let r := streamingHandleReply st ml
    let rr := processReplies r.1 rest
    (rr.1, r.2 ++ rr.2)

/-- The `DATA` reply frame lists for the given chunks of one request. -/
def dataMsgs (msg_id : Frame) (chunks : List Frame) : List (List Frame) :=
  chunks.map (fun c => [msg_id, Frame.bytes "DATA", c])

/-! ## Whole-dispatcher trace model

Registry-level state machine covering both dispatcher variants and the
timeout timers, used for the registry invariants. `armed` is the set of
msg_ids whose `DelayedCallback` has been started and neither stopped nor
fired; `used` records every msg_id ever minted (`uuid.uuid4` never repeats,
so `send` requires a fresh id); `removals` logs each successful removal of a
pending entry (a `pop` that found the key). Handler calls have no registry
effect, so they are not tracked here. -/

structure Sys where
  reg : Registry
  armed : List Frame
  used : List Frame
  removals : List Frame
deriving DecidableEq, Repr

/-- Actions driving the dispatcher state: `send` registers a pending request
(`send_request`, lines 107-126), `bulkReply`/`streamReply` deliver a reply
frame list to the respective `_handle_reply`, and `fire` is the timeout
callback firing (only possible while the timer is armed; firing disarms it,
one-shot). -/
inductive Act where
  | send (msg_id : Frame) (handler : Handler) (withTimeout : Bool)
  | bulkReply (msg_list : List Frame)
  | streamReply (msg_list : List Frame)
  | fire (msg_id : Frame)
deriving DecidableEq, Repr

def initSys : Sys := { reg := [], armed := [], used := [], removals := [] }

/-- One step of the dispatcher trace model; `none` when the action is not
enabled (a `send` with a non-fresh id, or a `fire` of an unarmed timer). -/
def stepSys (s : Sys) (a : Act) : Option Sys :=
  match a with
  | .send msg_id handler withTimeout =>
    if msg_id ∈ s.used then none
    else some
      { reg := rinsert s.reg msg_id (handler, withTimeout),
        armed := if withTimeout then msg_id :: s.armed else s.armed,
        used := msg_id :: s.used,
        removals := s.removals }
  | .bulkReply msg_list =>
    match msg_list with
    | [] => some s
    | [_] => some s
    | msg_id :: _ =>
      match rlookup s.reg msg_id with
      | none => some s
      | some (_, dc) =>
        some
          { reg := rremove s.reg msg_id,
            armed := if dc then s.armed.filter (fun x => ¬ x = msg_id)
                     else s.armed,
            used := s.used,
            removals := msg_id :: s.removals }
  | .streamReply msg_list =>
    match msg_list with
    | [] => some s
    | [_] => some s
    | msg_id :: reply :: rest =>
      match rlookup s.reg msg_id with
      | none => some s
      | some (handler, dc) =>
        if reply = Frame.bytes "DATA" ∧ rest.length = 1 then
          some
            { reg := if dc then rinsert s.reg msg_id (handler, false)
                     else s.reg,
              armed := if dc then s.armed.filter (fun x => ¬ x = msg_id)
                       else s.armed,
              used := s.used,
              removals := s.removals }
        else if reply = Frame.bytes "FINISH" then
          -- the FINISH branch pops the entry but never calls dc.stop(),
          -- so the timer (if any) stays armed
          some
            { reg := rremove s.reg msg_id,
              armed := s.armed,
              used := s.used,
              removals := msg_id :: s.removals }
        else some s
  | .fire msg_id =>
    if msg_id ∈ s.armed then
      some
        { reg := rremove s.reg msg_id,
          armed := s.armed.filter (fun x => ¬ x = msg_id),
          used := s.used,
          removals := if (rlookup s.reg msg_id).isSome
                      then msg_id :: s.removals else s.removals }
    else none

/-- States reachable from the empty dispatcher. -/
inductive ReachableSys : Sys → Prop where
  | init : ReachableSys initSys
  | step {s : Sys} {a : Act} {s' : Sys} :
      ReachableSys s → stepSys s a = some s' → ReachableSys s'

/-- The registry invariants maintained by the dispatcher trace model. -/
structure SysInv (s : Sys) : Prop where
  nodupKeys : (keys s.reg).Nodup
  nodupRem : s.removals.Nodup
  regFresh : ∀ id ∈ keys s.reg, id ∉ s.removals
  regUsed : ∀ id ∈ keys s.reg, id ∈ s.used
  remUsed : ∀ id ∈ s.removals, id ∈ s.used

theorem mem_keys_filter {l : List Frame} {k x : Frame} :
    x ∈ l.filter (fun y => ¬ y = k) ↔ x ∈ l ∧ ¬ x = k := by
  simp [List.mem_filter]

theorem mem_keys_of_rlookup {st : Registry} {k : Frame} {v : Handler × Bool}
    (h : rlookup st k = some v) : k ∈ keys st := by
  rw [mem_keys_iff_isSome, h]; rfl

theorem keys_rinsert (st : Registry) (k : Frame) (v : Handler × Bool) :
    keys (rinsert st k v) = k :: (keys st).filter (fun x => ¬ x = k) := by
  show k :: keys (rremove st k) = _
  rw [keys_rremove]

theorem nodup_keys_rinsert (st : Registry) (k : Frame) (v : Handler × Bool)
    (h : (keys st).Nodup) : (keys (rinsert st k v)).Nodup := by
  rw [keys_rinsert, List.nodup_cons]
  refine ⟨fun hmem => ?_, h.filter _⟩
  exact (mem_keys_filter.1 hmem).2 rfl

/-- Helper for the reply/timeout branches that pop an existing entry with key
`k` and log the removal: the registry invariants are preserved. -/
theorem sysInv_pop {s : Sys} (hinv : SysInv s) {k : Frame}
    (hk : k ∈ keys s.reg) (armed' : List Frame) :
    SysInv { reg := rremove s.reg k, armed := armed', used := s.used,
             removals := k :: s.removals } := by
  obtain ⟨hnk, hnr, hrf, hru, hmu⟩ := hinv
  refine ⟨?_, ?_, ?_, ?_, ?_⟩
  · rw [keys_rremove]; exact hnk.filter _
  · exact List.nodup_cons.2 ⟨hrf _ hk, hnr⟩
  · intro x hx
    rw [keys_rremove] at hx
    obtain ⟨hx1, hx2⟩ := mem_keys_filter.1 hx
    intro hmem
    rcases List.mem_cons.1 hmem with h1 | h2
    · exact hx2 h1
    · exact hrf _ hx1 h2
  · intro x hx
    rw [keys_rremove] at hx
    exact hru _ (mem_keys_filter.1 hx).1
  · intro x hx
    rcases List.mem_cons.1 hx with h1 | h2
    · subst h1; exact hru _ hk
    · exact hmu _ h2

/-- Helper for branches that leave registry, used and removals unchanged and
only rebuild the armed set. -/
theorem sysInv_rearm {s : Sys} (hinv : SysInv s) (armed' : List Frame) :
    SysInv { reg := s.reg, armed := armed', used := s.used,
             removals := s.removals } := by
  obtain ⟨hnk, hnr, hrf, hru, hmu⟩ := hinv
  exact ⟨hnk, hnr, hrf, hru, hmu⟩

/-- Preservation of the registry invariants by every enabled step. -/
theorem sysInv_step {s : Sys} {a : Act} {s' : Sys}
    (hinv : SysInv s) (hstep : stepSys s a = some s') : SysInv s' := by
  obtain ⟨hnk, hnr, hrf, hru, hmu⟩ := hinv
  cases a with
  | send msg_id handler wt =>
    simp only [stepSys] at hstep
    by_cases hu : msg_id ∈ s.used
    · simp [hu] at hstep
    · rw [if_neg hu] at hstep
      injection hstep with hstep
      subst hstep
      refine ⟨nodup_keys_rinsert _ _ _ hnk, hnr, ?_, ?_, ?_⟩
      · intro k hk
        rw [keys_rinsert] at hk
        rcases List.mem_cons.1 hk with h1 | h2
        · subst h1
          exact fun hmem => hu (hmu _ hmem)
        · exact hrf _ (mem_keys_filter.1 h2).1
      · intro k hk
        rw [keys_rinsert] at hk
        rcases List.mem_cons.1 hk with h1 | h2
        · subst h1; exact List.mem_cons_self _ _
        · exact List.mem_cons_of_mem _ (hru _ (mem_keys_filter.1 h2).1)
      · intro k hk
        exact List.mem_cons_of_mem _ (hmu _ hk)
  | bulkReply ml =>
    match ml with
    | [] =>
      injection hstep with hstep
      subst hstep; exact ⟨hnk, hnr, hrf, hru, hmu⟩
    | [x] =>
      injection hstep with hstep
      subst hstep; exact ⟨hnk, hnr, hrf, hru, hmu⟩
    | msg_id :: r :: rest =>
      simp only [stepSys] at hstep
      cases hl : rlookup s.reg msg_id with
      | none =>
        rw [hl] at hstep
        injection hstep with hstep
        subst hstep; exact ⟨hnk, hnr, hrf, hru, hmu⟩
      | some v =>
        rw [hl] at hstep
        injection hstep with hstep
        subst hstep
        exact sysInv_pop ⟨hnk, hnr, hrf, hru, hmu⟩
          (mem_keys_of_rlookup hl) _
  | streamReply ml =>
    match ml with
    | [] =>
      injection hstep with hstep
      subst hstep; exact ⟨hnk, hnr, hrf, hru, hmu⟩
    | [x] =>
      injection hstep with hstep
      subst hstep; exact ⟨hnk, hnr, hrf, hru, hmu⟩
    | msg_id :: r :: rest =>
      simp only [stepSys] at hstep
      cases hl : rlookup s.reg msg_id with
      | none =>
        rw [hl] at hstep
        injection hstep with hstep
        subst hstep; exact ⟨hnk, hnr, hrf, hru, hmu⟩
      | some v =>
        simp only [hl] at hstep
        by_cases hd : r = Frame.bytes "DATA" ∧ rest.length = 1
        · rw [if_pos hd] at hstep
          injection hstep with hstep
          subst hstep
          cases hb : v.2 with
          | false =>
            simp only [hb, if_false, Bool.false_eq_true]
            exact sysInv_rearm ⟨hnk, hnr, hrf, hru, hmu⟩ _
          | true =>
            simp only [hb, if_true]
            refine ⟨nodup_keys_rinsert _ _ _ hnk, hnr, ?_, ?_, hmu⟩
            · intro k hk
              rw [keys_rinsert] at hk
              rcases List.mem_cons.1 hk with h1 | h2
              · subst h1; exact hrf _ (mem_keys_of_rlookup hl)
              · exact hrf _ (mem_keys_filter.1 h2).1
            · intro k hk
              rw [keys_rinsert] at hk
              rcases List.mem_cons.1 hk with h1 | h2
              · subst h1; exact hru _ (mem_keys_of_rlookup hl)
              · exact hru _ (mem_keys_filter.1 h2).1
        · rw [if_neg hd] at hstep
          by_cases hf : r = Frame.bytes "FINISH"
          · rw [if_pos hf] at hstep
            injection hstep with hstep
            subst hstep
            exact sysInv_pop ⟨hnk, hnr, hrf, hru, hmu⟩
              (mem_keys_of_rlookup hl) _
          · rw [if_neg hf] at hstep
            injection hstep with hstep
            subst hstep; exact ⟨hnk, hnr, hrf, hru, hmu⟩
  | fire msg_id =>
    simp only [stepSys] at hstep
    by_cases ha : msg_id ∈ s.armed
    · rw [if_pos ha] at hstep
      injection hstep with hstep
      subst hstep
      cases hl : rlookup s.reg msg_id with
      | none =>
        simp only [hl, Option.isSome_none, Bool.false_eq_true, if_false]
        refine ⟨?_, hnr, ?_, ?_, hmu⟩
        · rw [keys_rremove]; exact hnk.filter _
        · intro k hk
          rw [keys_rremove] at hk
          exact hrf _ (mem_keys_filter.1 hk).1
        · intro k hk
          rw [keys_rremove] at hk
          exact hru _ (mem_keys_filter.1 hk).1
      | some v =>
        simp only [hl, Option.isSome_some, if_true]
        exact sysInv_pop ⟨hnk, hnr, hrf, hru, hmu⟩
          (mem_keys_of_rlookup hl) _
    · simp [ha] at hstep

/-- The registry invariants hold in every reachable dispatcher state. -/
theorem sysInv_reachable {s : Sys} (h : ReachableSys s) : SysInv s := by
  induction h with
  | init =>
    exact ⟨List.nodup_nil, List.nodup_nil, by simp [initSys, keys],
           by simp [initSys, keys], by simp [initSys]⟩
  | step hr hs ih => exact sysInv_step ih hs

/-! ## Computation lemmas for the codec and registry -/

theorem listIndex_append (idents rest : List Frame) (hnd : delim ∉ idents) :
    listIndex (idents ++ delim :: rest) delim = .ok idents.length := by
  induction idents with
  | nil => simp [listIndex]
  | cons a l ih =>
    have ha : ¬ a = delim := fun h => hnd (h ▸ List.mem_cons_self a l)
    have ih' := ih (fun h => hnd (List.mem_cons_of_mem a h))
    simp [listIndex, ha, ih']

theorem get?_append_length (l1 l2 : List Frame) (k : Nat) :
    (l1 ++ l2).get? (l1.length + k) = l2.get? k := by
  induction l1 with
  | nil => simp
  | cons a l ih => simpa [Nat.succ_add] using ih

theorem getFrame_append (l1 l2 : List Frame) (k : Nat) :
    getFrame (l1 ++ l2) (l1.length + k) = getFrame l2 k := by
  unfold getFrame
  rw [get?_append_length]

theorem take_append_length (l1 l2 : List Frame) :
    (l1 ++ l2).take l1.length = l1 := by
  induction l1 with
  | nil => simp
  | cons a l ih => simp [ih]

theorem rremove_rremove_self (st : Registry) (k : Frame) :
    rremove (rremove st k) k = rremove st k := by
  simp [rremove, List.filter_filter]

theorem rremove_rinsert_self (st : Registry) (k : Frame) (v : Handler × Bool) :
    rremove (rinsert st k v) k = rremove st k := by
  show List.filter _ ((k, v) :: rremove st k) = rremove st k
  rw [List.filter_cons, if_neg (by simp)]
  exact rremove_rremove_self st k

/-- Evaluation of `_parse_request` on any frame list of the wire shape
`P ++ [b'|'] ++ [I, metadata-frame] ++ tail` with a non-empty, sentinel-free
identity prefix `P`: the sentinel is located at index `P.length`, the frames
before it become the identity prefix, the two after it the correlation id and
the metadata, and the body frame is taken exactly when one frame follows the
metadata. -/
theorem parse_shape (P : List Frame) (I mf : Frame) (tail : List Frame)
    (hne : P ≠ []) (hnd : delim ∉ P) :
    parseRequest (P ++ delim :: I :: mf :: tail)
      = match jsonapiLoads mf with
        | .error e => .error e
        | .ok m =>
          .ok { request := mkZMQHTTPRequest m
                  (if tail.length = 1 then (tail.get? 0).getD (.bytes "")
                   else .bytes "")
                  P I,
                args := m.args, kwargs := m.kwargs } := by
  have hn : 0 < P.length := List.length_pos.2 hne
  have h4 : ¬ (P ++ delim :: I :: mf :: tail).length < 4 := by
    simp only [List.length_append, List.length_cons]
    omega
  have hidx : listIndex (P ++ delim :: I :: mf :: tail) delim
      = .ok P.length := listIndex_append P _ hnd
  have hg1 : getFrame (P ++ delim :: I :: mf :: tail) (P.length + 1)
      = .ok I := by
    simpa using getFrame_append P (delim :: I :: mf :: tail) 1
  have hg2 : getFrame (P ++ delim :: I :: mf :: tail) (P.length + 2)
      = .ok mf := by
    simpa using getFrame_append P (delim :: I :: mf :: tail) 2
  have hbody : (P ++ delim :: I :: mf :: tail).get? (P.length + 3)
      = tail.get? 0 := by
    simpa using get?_append_length P (delim :: I :: mf :: tail) 3
  have htake : (P ++ delim :: I :: mf :: tail).take P.length = P :=
    take_append_length P _
  have hcond : ((P ++ delim :: I :: mf :: tail).length = P.length + 4)
      = (tail.length = 1) := by
    apply propext
    simp only [List.length_append, List.length_cons]
    omega
  cases hm : jsonapiLoads mf with
  | error e =>
    simp only [parseRequest, if_neg h4, hidx, hg1, hg2, hm]
  | ok m =>
    simp only [parseRequest, if_neg h4, hidx, hg1, hg2, hm, hcond, hbody,
      htake]

theorem ite_nil_self {α : Type} [DecidableEq α] (x : List α) :
    (if x = [] then ([] : List α) else x) = x := by
  by_cases h : x = [] <;> simp [h]

/-- With the timer already disarmed, each further DATA chunk leaves the
registry untouched and appends a write+flush pair, and the final FINISH pops
the entry and finalizes: the whole sequence forwards the chunks in order. -/
theorem processReplies_data_finish (msg_id : Frame) (h : Handler)
    (st : Registry) (chunks : List Frame)
    (hreg : rlookup st msg_id = some (h, false)) :
    processReplies st
        (dataMsgs msg_id chunks ++ [[msg_id, Frame.bytes "FINISH"]])
      = (rremove st msg_id,
         chunks.flatMap (fun c => [HEvent.write h c, HEvent.flush h])
           ++ [HEvent.finish h]) := by
  induction chunks generalizing st with
  | nil =>
    have hfin : streamingHandleReply st [msg_id, Frame.bytes "FINISH"]
        = (rremove st msg_id, [HEvent.finish h]) := by
      simp [streamingHandleReply, hreg]
    simp [dataMsgs, processReplies, hfin]
  | cons c cs ih =>
    have h1 : streamingHandleReply st [msg_id, Frame.bytes "DATA", c]
        = (st, [HEvent.write h c, HEvent.flush h]) := by
      simp [streamingHandleReply, hreg]
    have hms : dataMsgs msg_id (c :: cs) ++ [[msg_id, Frame.bytes "FINISH"]]
        = [msg_id, Frame.bytes "DATA", c]
          :: (dataMsgs msg_id cs ++ [[msg_id, Frame.bytes "FINISH"]]) := by
      simp [dataMsgs]
    rw [hms]
    simp only [processReplies, h1, ih st hreg]
    simp

/-! ## Claim theorems -/

/-- C1: the back end's receive callback absorbs a frame list with fewer than
4 frames (IndexError from `_parse_request` is caught and logged), but the
other half of the claim fails on the code: a frame list with 4 or more frames
and no `b'|'` sentinel makes `msg_list.index(b'|')` raise ValueError, which
`_handle_request` does not catch — the exception escapes the receive
callback. This theorem evaluates both cases. -/
theorem backend_malformed_message_handling :
    handleRequest [Frame.bytes "a", Frame.bytes "b", Frame.bytes "c"]
      = .droppedMalformed
    ∧ handleRequest [Frame.bytes "a", Frame.bytes "b", Frame.bytes "c",
        Frame.bytes "d"] = .escaped .valueError := by
  exact ⟨rfl, rfl⟩

/-- C2 counterexample: the claim says that when the pending entry was already
removed the timeout callback does nothing and in particular sends no 504; in
the code `handler.send_error(504)` runs unconditionally before the pop, so
with an empty registry the callback still emits the 504 (and logs the
KeyError). -/
theorem timeout_callback_claim_false :
    rlookup ([] : Registry) (Frame.bytes "m") = none
    ∧ (handleTimeoutCb [] (Frame.bytes "m") 7).2
        = [HEvent.sendError 7 504, HEvent.logged] := ⟨rfl, rfl⟩

/-- C2 amended: when the timeout callback fires it always signals the handler
with 504 — before and regardless of whether the entry is still present — and
then removes the entry if present (leaving other entries untouched); if the
entry was already removed it logs an error instead of doing nothing. -/
theorem timeout_callback_behaviour (st : Registry) (msg_id : Frame)
    (handler : Handler) :
    HEvent.sendError handler 504 ∈ (handleTimeoutCb st msg_id handler).2
    ∧ rlookup (handleTimeoutCb st msg_id handler).1 msg_id = none
    ∧ (∀ k, ¬ k = msg_id →
        rlookup (handleTimeoutCb st msg_id handler).1 k = rlookup st k)
    ∧ ((rlookup st msg_id).isNone = true →
        HEvent.logged ∈ (handleTimeoutCb st msg_id handler).2) := by
  cases hl : rlookup st msg_id with
  | none =>
    refine ⟨?_, ?_, ?_, ?_⟩ <;> simp [handleTimeoutCb, hl]
  | some v =>
    refine ⟨?_, ?_, ?_, ?_⟩
    · simp [handleTimeoutCb, hl]
    · simp only [handleTimeoutCb, hl]
      exact rlookup_rremove_self st msg_id
    · intro k hk
      simp only [handleTimeoutCb, hl]
      exact rlookup_rremove_ne st msg_id k hk
    · simp [hl]

theorem timeout_callback_behaviour_witness :
    HEvent.sendError 7 504 ∈ (handleTimeoutCb [] (Frame.bytes "m") 7).2 :=
  (timeout_callback_behaviour [] (Frame.bytes "m") 7).1

/-- C3 counterexample: the claim says FINISH finalizes only with exactly 2
frames; in the code the `elif reply == b'FINISH'` branch has no frame-count
check, so a 3-frame `[id, FINISH, junk]` for a registered id still pops the
entry and finalizes the handler. -/
theorem streaming_finish_extra_frames_finalize :
    streamingHandleReply [(Frame.bytes "m", 7, false)]
      [Frame.bytes "m", Frame.bytes "FINISH", Frame.bytes "junk"]
      = ([], [HEvent.finish 7]) := by decide

/-- C3 amended: for a registered id, a reply whose second frame is FINISH
removes the entry and finalizes the handler for every frame count ≥ 2 (extra
trailing frames are ignored, not rejected); a reply whose second frame is
neither FINISH nor a DATA with exactly 3 frames is dropped silently — with no
effect on handler or registry, and also with no logged warning. -/
theorem streaming_reply_shape_behaviour (st : Registry) (msg_id tag : Frame)
    (v : Handler × Bool) (rest : List Frame)
    (hreg : rlookup st msg_id = some v)
    (hnf : ¬ tag = Frame.bytes "FINISH")
    (hnd : ¬ (tag = Frame.bytes "DATA" ∧ rest.length = 1)) :
    streamingHandleReply st (msg_id :: Frame.bytes "FINISH" :: rest)
      = (rremove st msg_id, [HEvent.finish v.1])
    ∧ streamingHandleReply st (msg_id :: tag :: rest) = (st, []) := by
  constructor
  · simp only [streamingHandleReply, hreg]
    rw [if_neg (by rintro ⟨h1, -⟩; exact absurd h1 (by decide))]
    simp
  · simp only [streamingHandleReply, hreg]
    rw [if_neg hnd, if_neg hnf]

theorem streaming_reply_shape_behaviour_witness :
    streamingHandleReply [(Frame.bytes "m", 7, true)]
      [Frame.bytes "m", Frame.bytes "FINISH", Frame.bytes "x", Frame.bytes "y"]
      = (rremove [(Frame.bytes "m", 7, true)] (Frame.bytes "m"),
         [HEvent.finish 7]) :=
  (streaming_reply_shape_behaviour [(Frame.bytes "m", 7, true)]
    (Frame.bytes "m") (Frame.bytes "OTHER") (7, true)
    [Frame.bytes "x", Frame.bytes "y"]
    (by decide) (by decide) (by decide)).1

/-- C4: the claim says a connection-reset (socket.error) raised while
forwarding a DATA chunk or finalizing on FINISH is swallowed and no exception
escapes the receive callback. The module never imports `socket`, so when the
try-body raises, evaluating the clause `except socket.error` raises NameError,
which escapes the whole statement — for a socket error and for any other
exception alike. -/
theorem streaming_except_clauses_escape :
    exceptSocketBlock (Except.error PyErr.socketError)
      = Except.error PyErr.nameError
    ∧ exceptSocketBlock (Except.error PyErr.otherError)
      = Except.error PyErr.nameError
    ∧ lookupName "socket" = Except.error PyErr.nameError := by
  refine ⟨?_, ?_, ?_⟩ <;> rfl

/-- C5: encoding a request with the front end's send path, prefixing the
identity frames the transport adds, and decoding with the back end's parse
path reproduces method, uri, version, headers, remote_ip, protocol, host,
files, arguments, args and kwargs exactly; the encoded frame list carries a
fourth (raw-body) frame iff the original body was non-empty. -/
theorem codec_round_trip (req : FrontRequest) (args : List String)
    (kwargs : List (String × String)) (msg_id : String) (idents : List Frame)
    (hne : idents ≠ []) (hnd : delim ∉ idents) :
    (∃ p : Parsed,
      parseRequest (idents ++ encodeRequest req args kwargs msg_id) = .ok p
      ∧ p.request.method = req.method
      ∧ p.request.uri = req.uri
      ∧ p.request.version = req.version
      ∧ p.request.headers = req.headers
      ∧ p.request.remote_ip = req.remote_ip
      ∧ p.request.protocol = req.protocol
      ∧ p.request.host = req.host
      ∧ p.request.files = req.files
      ∧ p.request.arguments = req.arguments
      ∧ p.args = args
      ∧ p.kwargs = kwargs)
    ∧ ((encodeRequest req args kwargs msg_id).length = 4 ↔ ¬ req.body = "")
    ∧ ((encodeRequest req args kwargs msg_id).length = 3 ↔ req.body = "") := by
  by_cases hb : req.body = ""
  · have henc : encodeRequest req args kwargs msg_id
        = [delim, .bytes msg_id, .json (reqMeta req args kwargs)] := by
      simp [encodeRequest, hb, jsonapiDumps]
    have hp := parse_shape idents (.bytes msg_id)
      (.json (reqMeta req args kwargs)) [] hne hnd
    simp only [jsonapiLoads] at hp
    rw [henc]
    refine ⟨⟨_, hp, rfl, rfl, rfl, ite_nil_self _, rfl, rfl, rfl,
      ite_nil_self _, rfl, rfl, rfl⟩, ?_, ?_⟩ <;> simp [hb]
  · have henc : encodeRequest req args kwargs msg_id
        = [delim, .bytes msg_id, .json (reqMeta req args kwargs),
           .bytes req.body] := by
      simp [encodeRequest, hb, jsonapiDumps]
    have hp := parse_shape idents (.bytes msg_id)
      (.json (reqMeta req args kwargs)) [.bytes req.body] hne hnd
    simp only [jsonapiLoads] at hp
    rw [henc]
    refine ⟨⟨_, hp, rfl, rfl, rfl, ite_nil_self _, rfl, rfl, rfl,
      ite_nil_self _, rfl, rfl, rfl⟩, ?_, ?_⟩ <;> simp [hb]

theorem codec_round_trip_witness :
    ((encodeRequest ⟨"GET", "/w", "HTTP/1.1", [("A", "b")], "hello",
        "1.2.3.4", "http", "h", [], []⟩ ["7"] [("k", "v")] "mid").length = 4
      ↔ ¬ (⟨"GET", "/w", "HTTP/1.1", [("A", "b")], "hello", "1.2.3.4",
        "http", "h", [], []⟩ : FrontRequest).body = "") :=
  (codec_round_trip _ ["7"] [("k", "v")] "mid" [Frame.bytes "peer"]
    (by decide) (by decide)).2.1

/-- C6: for any inbound frame list with a non-empty, sentinel-free identity
prefix `P` and correlation id `I`, the parse captures `P` and `I` verbatim in
the request object, and every reply frame list the request representation
builds from them — bulk finish, streaming write, streaming finish — begins
with exactly the frames of `P` in order followed immediately by `I`. -/
theorem identity_echo (P : List Frame) (I : Frame) (m : Meta)
    (tail chunks : List Frame) (chunk : Frame)
    (hne : P ≠ []) (hnd : delim ∉ P) :
    ∃ p : Parsed,
      parseRequest (P ++ delim :: I :: Frame.json m :: tail) = .ok p
      ∧ p.request.idents = P
      ∧ p.request.msg_id = I
      ∧ bulkFinishFrames p.request.idents p.request.msg_id chunks
          = P ++ I :: chunks
      ∧ streamWriteFrames p.request.idents p.request.msg_id chunk
          = P ++ I :: Frame.bytes "DATA" :: chunk :: []
      ∧ streamFinishFrames p.request.idents p.request.msg_id
          = P ++ I :: Frame.bytes "FINISH" :: [] := by
  have hp := parse_shape P I (.json m) tail hne hnd
  simp only [jsonapiLoads] at hp
  refine ⟨_, hp, rfl, rfl, ?_, ?_, ?_⟩ <;>
    simp [bulkFinishFrames, streamWriteFrames, streamFinishFrames,
      createMsgList, mkZMQHTTPRequest]

theorem identity_echo_witness :
    ∃ p : Parsed,
      parseRequest ([Frame.bytes "peer"] ++ delim :: Frame.bytes "m"
          :: Frame.json ⟨"GET", "/", "HTTP/1.1", [], "ip", "http", "h",
            [], [], [], []⟩ :: []) = .ok p
      ∧ p.request.idents = [Frame.bytes "peer"]
      ∧ p.request.msg_id = Frame.bytes "m" := by
  obtain ⟨p, h1, h2, h3, -⟩ := identity_echo [Frame.bytes "peer"]
    (Frame.bytes "m")
    ⟨"GET", "/", "HTTP/1.1", [], "ip", "http", "h", [], [], [], []⟩
    [] [] (Frame.bytes "c") (by decide) (by decide)
  exact ⟨p, h1, h2, h3⟩

/-- C7: for a registered id whose entry still holds its timer, the first
well-formed DATA chunk rebinds the entry with the timer disarmed — the entry
is not removed, and later DATA chunks find it with no timer — and a FINISH
after N DATA chunks removes the entry and finalizes the handler after the N
chunks were forwarded to the handler's write path (each followed by a flush)
in the order received. -/
theorem streaming_data_then_finish (st : Registry) (msg_id : Frame)
    (h : Handler) (c : Frame) (chunks : List Frame)
    (hreg : rlookup st msg_id = some (h, true)) :
    streamingHandleReply st [msg_id, Frame.bytes "DATA", c]
      = (rinsert st msg_id (h, false), [HEvent.write h c, HEvent.flush h])
    ∧ rlookup (rinsert st msg_id (h, false)) msg_id = some (h, false)
    ∧ processReplies st
        (dataMsgs msg_id (c :: chunks) ++ [[msg_id, Frame.bytes "FINISH"]])
      = (rremove st msg_id,
         (c :: chunks).flatMap (fun x => [HEvent.write h x, HEvent.flush h])
           ++ [HEvent.finish h]) := by
  have h1 : streamingHandleReply st [msg_id, Frame.bytes "DATA", c]
      = (rinsert st msg_id (h, false),
         [HEvent.write h c, HEvent.flush h]) := by
    simp [streamingHandleReply, hreg]
  refine ⟨h1, rlookup_rinsert_self st msg_id (h, false), ?_⟩
  have hms : dataMsgs msg_id (c :: chunks) ++ [[msg_id, Frame.bytes "FINISH"]]
      = [msg_id, Frame.bytes "DATA", c]
        :: (dataMsgs msg_id chunks ++ [[msg_id, Frame.bytes "FINISH"]]) := by
    simp [dataMsgs]
  rw [hms]
  simp only [processReplies, h1,
    processReplies_data_finish msg_id h (rinsert st msg_id (h, false)) chunks
      (rlookup_rinsert_self st msg_id (h, false)),
    rremove_rinsert_self st msg_id]
  simp

theorem streaming_data_then_finish_witness :
    streamingHandleReply [(Frame.bytes "m", 7, true)]
      [Frame.bytes "m", Frame.bytes "DATA", Frame.bytes "a"]
      = (rinsert [(Frame.bytes "m", 7, true)] (Frame.bytes "m") (7, false),
         [HEvent.write 7 (Frame.bytes "a"), HEvent.flush 7]) :=
  (streaming_data_then_finish [(Frame.bytes "m", 7, true)] (Frame.bytes "m")
    7 (Frame.bytes "a") [Frame.bytes "b"] (by decide)).1

/-- C8: in every reachable dispatcher state (bulk and streaming replies,
sends with fresh correlation ids, timeout firings), the registry holds at
most one pending entry per correlation id, and each id is removed (claimed by
the reply path or the timeout path) at most once — the removal log never
repeats an id. -/
theorem at_most_one_entry_and_single_removal (s : Sys)
    (hs : ReachableSys s) :
    (keys s.reg).Nodup ∧ s.removals.Nodup :=
  let hinv := sysInv_reachable hs
  ⟨hinv.nodupKeys, hinv.nodupRem⟩

theorem at_most_one_entry_and_single_removal_witness :
    (keys ({ reg := [], armed := [], used := [Frame.bytes "m"],
             removals := [Frame.bytes "m"] } : Sys).reg).Nodup
    ∧ ({ reg := [], armed := [], used := [Frame.bytes "m"],
         removals := [Frame.bytes "m"] } : Sys).removals.Nodup :=
  have h1 : stepSys initSys (Act.send (Frame.bytes "m") 7 true)
      = some ({ reg := [(Frame.bytes "m", 7, true)],
                armed := [Frame.bytes "m"],
                used := [Frame.bytes "m"], removals := [] } : Sys) := by decide
  have h2 : stepSys ({ reg := [(Frame.bytes "m", 7, true)],
                       armed := [Frame.bytes "m"],
                       used := [Frame.bytes "m"], removals := [] } : Sys)
      (Act.bulkReply [Frame.bytes "m", Frame.bytes "ok"])
      = some ({ reg := [], armed := [], used := [Frame.bytes "m"],
                removals := [Frame.bytes "m"] } : Sys) := by decide
  at_most_one_entry_and_single_removal _
    (ReachableSys.step (ReachableSys.step ReachableSys.init h1) h2)

/-- C9: a reply frame list with fewer than 2 frames, or whose first frame
matches no registered correlation id, is dropped by both dispatchers: the
registry is unchanged, no handler method is invoked (at most a log record is
emitted), and no exception is raised (the bulk caught-exception flag stays
false). -/
theorem short_or_unknown_reply_dropped (st : Registry) (ml : List Frame)
    (failAt : Option Nat)
    (hcond : ml.length < 2
      ∨ ∃ id rest, ml = id :: rest ∧ rlookup st id = none) :
    (bulkHandleReply failAt st ml).1 = st
    ∧ (∀ e ∈ (bulkHandleReply failAt st ml).2.1, e = HEvent.logged)
    ∧ (bulkHandleReply failAt st ml).2.2 = false
    ∧ (streamingHandleReply st ml).1 = st
    ∧ (∀ e ∈ (streamingHandleReply st ml).2, e = HEvent.logged) := by
  match ml with
  | [] =>
    exact ⟨rfl, by simp [bulkHandleReply], rfl, rfl,
      by simp [streamingHandleReply]⟩
  | [x] =>
    exact ⟨rfl, by simp [bulkHandleReply], rfl, rfl,
      by simp [streamingHandleReply]⟩
  | x :: y :: rest =>
    have hl : rlookup st x = none := by
      rcases hcond with hlen | ⟨id, r, heq, hl⟩
      · exact absurd hlen (by simp)
      · cases heq; exact hl
    refine ⟨?_, ?_, ?_, ?_, ?_⟩ <;>
      simp [bulkHandleReply, streamingHandleReply, hl]

theorem short_or_unknown_reply_dropped_witness :
    (bulkHandleReply none [] [Frame.bytes "m", Frame.bytes "x"]).1 = [] :=
  (short_or_unknown_reply_dropped [] [Frame.bytes "m", Frame.bytes "x"] none
    (Or.inr ⟨Frame.bytes "m", [Frame.bytes "x"], rfl, rfl⟩)).1

/-- C10: in the bulk dispatcher, a reply with ≥ 2 frames for a registered id
removes the entry first, independently of whether (and where) the handler's
write/finish raises; the raise is caught and flagged, the entry stays
removed, a redelivery of the same reply is dropped without effect, and the
timeout callback can no longer pop the entry (the registry is left unchanged
by it). -/
theorem bulk_reply_pop_before_forward (st : Registry) (msg_id r0 : Frame)
    (v : Handler × Bool) (replies : List Frame) (failAt failAt2 : Option Nat)
    (hreg : rlookup st msg_id = some v) :
    (bulkHandleReply failAt st (msg_id :: r0 :: replies)).1
      = rremove st msg_id
    ∧ rlookup (rremove st msg_id) msg_id = none
    ∧ bulkHandleReply failAt2 (rremove st msg_id) (msg_id :: r0 :: replies)
        = (rremove st msg_id, [], false)
    ∧ handleTimeoutCb (rremove st msg_id) msg_id v.1
        = (rremove st msg_id, [HEvent.sendError v.1 504, HEvent.logged])
    ∧ bulkHandleReply (some 0) st (msg_id :: r0 :: replies)
        = (rremove st msg_id, [HEvent.logged], true) := by
  have hnone := rlookup_rremove_self st msg_id
  refine ⟨?_, hnone, ?_, ?_, ?_⟩
  · simp only [bulkHandleReply, hreg]
    cases failAt with
    | none => rfl
    | some k =>
      by_cases hk : k < (bulkCalls v.1 (r0 :: replies)).length <;> simp [hk]
  · simp [bulkHandleReply, hnone]
  · simp [handleTimeoutCb, hnone]
  · have h0 : 0 < (bulkCalls v.1 (r0 :: replies)).length := by
      simp [bulkCalls]
    simp [bulkHandleReply, hreg, h0]

theorem bulk_reply_pop_before_forward_witness :
    (bulkHandleReply none [(Frame.bytes "m", 5, true)]
      [Frame.bytes "m", Frame.bytes "ok"]).1
      = rremove [(Frame.bytes "m", 5, true)] (Frame.bytes "m") :=
  (bulk_reply_pop_before_forward [(Frame.bytes "m", 5, true)]
    (Frame.bytes "m") (Frame.bytes "ok") (5, true) [] none (some 1)
    (by decide)).1

end ZmqWeb
